import Mathlib

/-!
# Verification of the rustc_lexer literal scanner
  (`compiler/rustc_lexer/src/literals.rs`)

Shallow embedding of the literal-token scanner.  The mutable `Cursor` of the
source is modelled as a pair of the remaining input (a `List Char`) and the
count of characters consumed so far; every scan routine takes a cursor and
returns its result together with the advanced cursor.

The cursor itself (`cursor.rs`) and the identifier predicates are external to
the repository slice; they are modelled from the specification's interface
section (two-character lookahead, consume-one, consume-while, counted
consumption, radix digit-run eaters, exponent eater, suffix eater).
-/

set_option maxRecDepth 4000

/-- Sentinel character returned by lookahead past the end of input
(`EOF_CHAR` in `cursor.rs`). -/
def EOF_CHAR : Char := Char.ofNat 0

/-- Modelled from the spec: the forward-only character cursor.  `s` is the
remaining input, `consumed` the count of characters consumed so far
(`len_consumed`). -/
structure Cursor where
  s : List Char
  consumed : Nat
deriving DecidableEq, Repr

namespace Cursor

/-- Peek the next character without consuming (`first`). -/
def first (c : Cursor) : Char := c.s.headD EOF_CHAR

/-- Peek the next-but-one character without consuming (`second`). -/
def second (c : Cursor) : Char := (c.s.drop 1).headD EOF_CHAR

/-- End-of-input test (`is_eof`). -/
def is_eof (c : Cursor) : Bool := c.s.isEmpty

/-- Count of characters consumed so far (`len_consumed`). -/
def len_consumed (c : Cursor) : Nat := c.consumed

/-- Consume and return the next character, or `none` at end of input
(`bump`). -/
def bump (c : Cursor) : Option Char × Cursor :=
  match c.s with
  | [] => (none, c)
  | x :: xs => (some x, ⟨xs, c.consumed + 1⟩)

/-- Consume characters while the predicate holds (`eat_while`). -/
def eat_while (c : Cursor) (p : Char → Bool) : Cursor :=
  ⟨c.s.dropWhile p, c.consumed + (c.s.takeWhile p).length⟩

/-- Decimal digit or `_`: the characters consumed by `eat_decimal_digits`. -/
def isDecOrSep (ch : Char) : Bool := ch.isDigit || ch == '_'

/-- Hexadecimal digit (`0`-`9`, `a`-`f`, `A`-`F`). -/
def isHexDig (ch : Char) : Bool :=
  ch.isDigit || ('a' ≤ ch && ch ≤ 'f') || ('A' ≤ ch && ch ≤ 'F')

/-- Hexadecimal digit or `_`: the characters consumed by
`eat_hexadecimal_digits`. -/
def isHexOrSep (ch : Char) : Bool := isHexDig ch || ch == '_'

/-- Modelled from the spec: decimal digit-run consumption — consumes decimal
digits and `_` separators, returns whether at least one non-separator digit
was found (`eat_decimal_digits`). -/
def eat_decimal_digits (c : Cursor) : Bool × Cursor :=
  ((c.s.takeWhile isDecOrSep).any Char.isDigit, c.eat_while isDecOrSep)

/-- Modelled from the spec: hexadecimal digit-run consumption — consumes hex
digits and `_` separators, returns whether at least one non-separator digit
was found (`eat_hexadecimal_digits`). -/
def eat_hexadecimal_digits (c : Cursor) : Bool × Cursor :=
  ((c.s.takeWhile isHexOrSep).any isHexDig, c.eat_while isHexOrSep)

/-- Modelled from the spec: exponent consumption — an optional sign then a
decimal digit run, returning whether any digit was found
(`eat_float_exponent`). -/
def eat_float_exponent (c : Cursor) : Bool × Cursor :=
  let c := if c.first = '-' || c.first = '+' then (c.bump).2 else c
  c.eat_decimal_digits

end Cursor

/-- Modelled from the spec: identifier-start classification (external
predicate `is_id_start`); ASCII model: a letter or `_`. -/
def is_id_start (ch : Char) : Bool := ch.isAlpha || ch == '_'

/-- Modelled from the spec: identifier-continuation classification (external
predicate `is_id_continue`); ASCII model: a letter, digit or `_`. -/
def is_id_continue (ch : Char) : Bool := ch.isAlphanum || ch == '_'

/-- Modelled from the spec: suffix-boundary consumption — eats trailing
identifier-like characters after a literal closes (`eat_literal_suffix`). -/
def Cursor.eat_literal_suffix (c : Cursor) : Cursor :=
  if is_id_start c.first then ((c.bump).2).eat_while is_id_continue else c

/-- Base of numeric literal encoding according to its prefix (`Base`). -/
inductive Base where
  | Binary
  | Octal
  | Hexadecimal
  | Decimal
deriving DecidableEq, Repr

/-- Error produced validating a raw string (`RawStrError`). -/
inductive RawStrError where
  | InvalidStarter (bad_char : Char)
  | NoTerminator (expected : Nat) (found : Nat)
      (possible_terminator_offset : Option Nat)
  | TooManyDelimiters (found : Nat)
deriving DecidableEq, Repr

/-- Kind of a literal token (`LiteralKind`).  Raw-string hash counts are kept
as `Nat`; `raw_double_quoted_string` enforces the 16-bit bound itself. -/
inductive LiteralKind where
  | Int (base : Base) (empty_int : Bool)
  | Float (base : Base) (empty_exponent : Bool)
  | Char (terminated : Bool)
  | Byte (terminated : Bool)
  | Str (terminated : Bool)
  | ByteStr (terminated : Bool)
  | RawStr (n_hashes : Nat) (err : Option RawStrError)
  | RawByteStr (n_hashes : Nat) (err : Option RawStrError)
deriving DecidableEq, Repr

/-- Modelled from the spec: the fragment of the external token-kind
enumeration produced by this core (`TokenKind::Literal`,
`TokenKind::Lifetime`). -/
inductive TokenKind where
  | Literal (kind : LiteralKind) (suffix_start : Nat)
  | Lifetime (starts_with_number : Bool)
deriving DecidableEq, Repr

/-- The trailing fractional/exponent inspection of `number`
(`literals.rs` lines 93-120): the `match cursor.first()` that decides
between a fractional part, a bare exponent, and a plain integer. -/
def numberAfterDigits (base : Base) (cursor : Cursor) : LiteralKind × Cursor :=
  if cursor.first = '.' ∧ cursor.second ≠ '.' ∧ ¬ is_id_start cursor.second then
    -- might have stuff after the ., and if it does, it needs to start
    -- with a number
    let cursor := (cursor.bump).2
    if cursor.first.isDigit then
      let cursor := (cursor.eat_decimal_digits).2
      if cursor.first = 'e' ∨ cursor.first = 'E' then
        let cursor := (cursor.bump).2
        let (ok, cursor) := cursor.eat_float_exponent
        (LiteralKind.Float base (!ok), cursor)
      else
        (LiteralKind.Float base false, cursor)
    else
      (LiteralKind.Float base false, cursor)
  else if cursor.first = 'e' ∨ cursor.first = 'E' then
    let cursor := (cursor.bump).2
    let (ok, cursor) := cursor.eat_float_exponent
    (LiteralKind.Float base (!ok), cursor)
  else
    (LiteralKind.Int base false, cursor)

/-- The numeric scanner (`number`): classifies and consumes an integer or
float literal, the first digit having already been consumed.  Each radix
branch inlines the fall-through to the trailing inspection
(`numberAfterDigits`); an empty digit run after a prefix returns
immediately, exactly as the source's early `return`. -/
def number (cursor : Cursor) (first_digit : Char) : LiteralKind × Cursor :=
  if first_digit = '0' then
    if cursor.first = 'b' then
      let cursor := (cursor.bump).2
      let (has_digits, cursor) := cursor.eat_decimal_digits
      if !has_digits then (LiteralKind.Int Base.Binary true, cursor)
      else numberAfterDigits Base.Binary cursor
    else if cursor.first = 'o' then
      let cursor := (cursor.bump).2
      let (has_digits, cursor) := cursor.eat_decimal_digits
      if !has_digits then (LiteralKind.Int Base.Octal true, cursor)
      else numberAfterDigits Base.Octal cursor
    else if cursor.first = 'x' then
      let cursor := (cursor.bump).2
      let (has_digits, cursor) := cursor.eat_hexadecimal_digits
      if !has_digits then (LiteralKind.Int Base.Hexadecimal true, cursor)
      else numberAfterDigits Base.Hexadecimal cursor
    else if cursor.first.isDigit ∨ cursor.first = '_' ∨ cursor.first = '.' ∨
        cursor.first = 'e' ∨ cursor.first = 'E' then
      -- Not a base prefix: eat a decimal run (`has_digits` is forced true).
      let cursor := (cursor.eat_decimal_digits).2
      numberAfterDigits Base.Decimal cursor
    else
      -- Just a 0.
      (LiteralKind.Int Base.Decimal false, cursor)
  else
    -- No base prefix, parse number in the usual way.
    let cursor := (cursor.eat_decimal_digits).2
    numberAfterDigits Base.Decimal cursor

/-- The general loop of `single_quoted_string` (`literals.rs` lines 181-205),
written as structural recursion on the remaining input.  The empty input
takes the end-of-file branch directly (when the input is empty `first()`
yields `EOF_CHAR` and `is_eof()` holds, so the source loop breaks); the
backslash branch with nothing after the backslash likewise ends at end of
file after the two bumps, the second of which consumes nothing. -/
def single_quoted_loop : List Char → Nat → Bool × Cursor
  | [], k => (false, ⟨[], k⟩)
  | ch :: rest, k =>
    if ch = '\'' then
      -- Quotes are terminated, finish parsing.
      (true, ⟨rest, k + 1⟩)
    else if ch = '/' then
      -- Probably beginning of the comment.
      (false, ⟨ch :: rest, k⟩)
    else if ch = '\n' ∧ rest.headD EOF_CHAR ≠ '\'' then
      -- Newline without following quote: unclosed, stop parsing.
      (false, ⟨ch :: rest, k⟩)
    else if ch = '\\' then
      -- Escaped character: bump twice.
      match rest with
      | [] => (false, ⟨[], k + 1⟩)
      | _ :: rest2 => single_quoted_loop rest2 (k + 2)
    else
      single_quoted_loop rest (k + 1)

/-- `single_quoted_string`: eats a single-quoted literal (the opening quote
already consumed) and reports whether it was terminated. -/
def single_quoted_string (cursor : Cursor) : Bool × Cursor :=
  -- Check if it's a one-symbol literal.
  if cursor.second = '\'' ∧ cursor.first ≠ '\\' then
    (true, (((cursor.bump).2).bump).2)
  else
    -- Literal has more than one symbol.
    single_quoted_loop cursor.s cursor.consumed

/-- The loop of `double_quoted_string` (`literals.rs` lines 214-225): bump a
character; a quote terminates, a backslash followed by `\` or `"` consumes
the escaped character as well, anything else is skipped. -/
def double_quoted_loop : List Char → Nat → Bool × Cursor
  | [], k => (false, ⟨[], k⟩)
  | ch :: rest, k =>
    if ch = '"' then
      (true, ⟨rest, k + 1⟩)
    else if ch = '\\' ∧ (rest.headD EOF_CHAR = '\\' ∨ rest.headD EOF_CHAR = '"') then
      -- Bump again to skip escaped character.  The lookahead matched, so
      -- `rest` is necessarily nonempty here.
      match rest with
      | [] => (false, ⟨[], k + 1⟩)
      | _ :: rest2 => double_quoted_loop rest2 (k + 2)
    else
      double_quoted_loop rest (k + 1)

/-- `double_quoted_string`: eats a double-quoted string (the opening quote
already consumed) and reports whether it was terminated. -/
def double_quoted_string (cursor : Cursor) : Bool × Cursor :=
  double_quoted_loop cursor.s cursor.consumed

/-- `lifetime_or_char`: decides between a lifetime token and a character
literal, the opening quote already consumed. -/
def lifetime_or_char (cursor : Cursor) : TokenKind × Cursor :=
  let can_be_a_lifetime :=
    if cursor.second = '\'' then
      -- It's surely not a lifetime.
      false
    else
      is_id_start cursor.first || (cursor.first).isDigit
  if !can_be_a_lifetime then
    let (terminated, cursor) := single_quoted_string cursor
    let suffix_start := cursor.len_consumed
    let cursor := if terminated then cursor.eat_literal_suffix else cursor
    (TokenKind.Literal (LiteralKind.Char terminated) suffix_start, cursor)
  else
    -- Either a lifetime or a character literal with length greater than 1.
    let starts_with_number := (cursor.first).isDigit
    let cursor := (cursor.bump).2
    let cursor := cursor.eat_while is_id_continue
    if cursor.first = '\'' then
      let cursor := (cursor.bump).2
      (TokenKind.Literal (LiteralKind.Char true) cursor.len_consumed, cursor)
    else
      (TokenKind.Lifetime starts_with_number, cursor)

/-- The content/closing-hash loop of `raw_string_unvalidated`
(`literals.rs` lines 271-308).  Arguments: opening hash count, `start_pos`,
the prefix length, the best closing run seen so far (`max_hashes`) and its
recorded offset, then the cursor.  The source's closing-hash counting loop
(`while first = hash and n_end_hashes < n_start_hashes`) consumes exactly
`min` of the pending hash-run length and the opening count. -/
def raw_string_loop (n_start sp pl : Nat) (max_hashes : Nat)
    (pto : Option Nat) (cursor : Cursor) : (Nat × Option RawStrError) × Cursor :=
  let c1 := cursor.eat_while (fun ch => ch != '"')
  -- `c1.is_eof` holds exactly when its remaining input is empty.
  match h : c1.s with
  | [] => ((n_start, some (RawStrError.NoTerminator n_start max_hashes pto)), c1)
  | _ :: rest =>
    -- Eat closing double quote (`c1.bump`; the head is the `"` found).
    let c2 : Cursor := ⟨rest, c1.consumed + 1⟩
    let n_end := min ((c2.s.takeWhile (· == '#')).length) n_start
    let c3 : Cursor := ⟨c2.s.drop n_end, c2.consumed + n_end⟩
    if n_end = n_start then
      ((n_start, none), c3)
    else if max_hashes < n_end then
      -- Keep track of possible terminators.
      raw_string_loop n_start sp pl n_end
        (some (c3.len_consumed - sp - n_end + pl)) c3
    else
      raw_string_loop n_start sp pl max_hashes pto c3
termination_by cursor.s.length
decreasing_by
  all_goals
    have h1 : (cursor.eat_while (fun ch => ch != '"')).s.length ≤ cursor.s.length := by
      simp only [Cursor.eat_while]
      exact List.Sublist.length_le (List.dropWhile_sublist _)
    rw [h] at h1
    simp only [List.length_cons] at h1
    simp only [List.length_drop]
    omega

/-- `raw_string_unvalidated`: eats a raw string (the `r` already consumed)
and returns the unbounded opening hash count plus any structural error. -/
def raw_string_unvalidated (cursor : Cursor) (pfx_len : Nat) :
    (Nat × Option RawStrError) × Cursor :=
  let start_pos := cursor.len_consumed
  -- Count opening '#' symbols.
  let n_start_hashes := (cursor.s.takeWhile (· == '#')).length
  let c1 := cursor.eat_while (· == '#')
  -- Check that string is started.
  match c1.bump with
  | (some c0, c2) =>
    if c0 = '"' then raw_string_loop n_start_hashes start_pos pfx_len 0 none c2
    else ((n_start_hashes, some (RawStrError.InvalidStarter c0)), c2)
  | (none, c2) => ((n_start_hashes, some (RawStrError.InvalidStarter EOF_CHAR)), c2)

/-- `raw_double_quoted_string`: wraps `raw_string_unvalidated`, narrowing the
hash count to the 16-bit range and overriding the result with
`TooManyDelimiters` when it does not fit. -/
def raw_double_quoted_string (cursor : Cursor) (pfx_len : Nat) :
    (Nat × Option RawStrError) × Cursor :=
  let ((n_hashes, err), cursor) := raw_string_unvalidated cursor pfx_len
  -- Only up to 65535 hashes are allowed in raw strings.
  if n_hashes ≤ 65535 then ((n_hashes, err), cursor)
  else ((0, some (RawStrError.TooManyDelimiters n_hashes)), cursor)

/-- The largest capped closing-hash run following any `"` of a character
list: the reference value of the `found` field of `NoTerminator`.  At each
quote the run of `#` characters immediately after it is measured, capped at
the opening hash count `n`. -/
def maxClosingRun (n : Nat) : List Char → Nat
  | [] => 0
  | ch :: rest =>
    if ch = '"' then
      max (min ((rest.takeWhile (· == '#')).length) n) (maxClosingRun n rest)
    else maxClosingRun n rest

/-! ## Fuel-indexed variants of the scan loops

Each loop of the scanner is re-stated with an explicit iteration budget;
`none` means the budget ran out.  Proving each loop equal to its budgeted
variant at budget `input length + 1` is the formal content of "every
iteration consumes at least one character or exits". -/

/-- `single_quoted_loop` with an explicit iteration budget. -/
def single_quoted_loopF : Nat → List Char → Nat → Option (Bool × Cursor)
  | 0, _, _ => none
  | _ + 1, [], k => some (false, ⟨[], k⟩)
  | fuel + 1, ch :: rest, k =>
    if ch = '\'' then some (true, ⟨rest, k + 1⟩)
    else if ch = '/' then some (false, ⟨ch :: rest, k⟩)
    else if ch = '\n' ∧ rest.headD EOF_CHAR ≠ '\'' then some (false, ⟨ch :: rest, k⟩)
    else if ch = '\\' then
      match rest with
      | [] => some (false, ⟨[], k + 1⟩)
      | _ :: rest2 => single_quoted_loopF fuel rest2 (k + 2)
    else single_quoted_loopF fuel rest (k + 1)

/-- `double_quoted_loop` with an explicit iteration budget. -/
def double_quoted_loopF : Nat → List Char → Nat → Option (Bool × Cursor)
  | 0, _, _ => none
  | _ + 1, [], k => some (false, ⟨[], k⟩)
  | fuel + 1, ch :: rest, k =>
    if ch = '"' then some (true, ⟨rest, k + 1⟩)
    else if ch = '\\' ∧ (rest.headD EOF_CHAR = '\\' ∨ rest.headD EOF_CHAR = '"') then
      match rest with
      | [] => some (false, ⟨[], k + 1⟩)
      | _ :: rest2 => double_quoted_loopF fuel rest2 (k + 2)
    else double_quoted_loopF fuel rest (k + 1)

/-- `raw_string_loop` with an explicit iteration budget. -/
def raw_string_loopF :
    Nat → Nat → Nat → Nat → Nat → Option Nat → Cursor →
      Option ((Nat × Option RawStrError) × Cursor)
  | 0, _, _, _, _, _, _ => none
  | fuel + 1, n_start, sp, pl, max_hashes, pto, cursor =>
    let c1 := cursor.eat_while (fun ch => ch != '"')
    match c1.s with
    | [] => some ((n_start, some (RawStrError.NoTerminator n_start max_hashes pto)), c1)
    | _ :: rest =>
      let c2 : Cursor := ⟨rest, c1.consumed + 1⟩
      let n_end := min ((c2.s.takeWhile (· == '#')).length) n_start
      let c3 : Cursor := ⟨c2.s.drop n_end, c2.consumed + n_end⟩
      if n_end = n_start then some ((n_start, none), c3)
      else if max_hashes < n_end then
        raw_string_loopF fuel n_start sp pl n_end
          (some (c3.len_consumed - sp - n_end + pl)) c3
      else raw_string_loopF fuel n_start sp pl max_hashes pto c3

/-! ## Basic cursor lemmas -/

theorem Cursor.eat_while_s (c : Cursor) (p : Char → Bool) :
    (c.eat_while p).s = c.s.dropWhile p := rfl

theorem Cursor.eat_while_consumed (c : Cursor) (p : Char → Bool) :
    (c.eat_while p).consumed = c.consumed + (c.s.takeWhile p).length := rfl

theorem dropWhile_length_le (p : Char → Bool) (s : List Char) :
    (s.dropWhile p).length ≤ s.length :=
  List.Sublist.length_le (List.dropWhile_sublist _)

/-- One-step equation of `single_quoted_loop` on a nonempty input. -/
theorem single_quoted_loop_cons (ch : Char) (rest : List Char) (k : Nat) :
    single_quoted_loop (ch :: rest) k =
      if ch = '\'' then (true, ⟨rest, k + 1⟩)
      else if ch = '/' then (false, ⟨ch :: rest, k⟩)
      else if ch = '\n' ∧ rest.headD EOF_CHAR ≠ '\'' then (false, ⟨ch :: rest, k⟩)
      else if ch = '\\' then
        match rest with
        | [] => (false, ⟨[], k + 1⟩)
        | _ :: rest2 => single_quoted_loop rest2 (k + 2)
      else single_quoted_loop rest (k + 1) := by
  conv_lhs => unfold single_quoted_loop

/-- One-step equation of `double_quoted_loop` on a nonempty input. -/
theorem double_quoted_loop_cons (ch : Char) (rest : List Char) (k : Nat) :
    double_quoted_loop (ch :: rest) k =
      if ch = '"' then (true, ⟨rest, k + 1⟩)
      else if ch = '\\' ∧ (rest.headD EOF_CHAR = '\\' ∨ rest.headD EOF_CHAR = '"') then
        match rest with
        | [] => (false, ⟨[], k + 1⟩)
        | _ :: rest2 => double_quoted_loop rest2 (k + 2)
      else double_quoted_loop rest (k + 1) := by
  conv_lhs => unfold double_quoted_loop

/-- Equation of `raw_string_loop` when the content scan reaches end of
input. -/
theorem raw_string_loop_of_eof (n sp pl m : Nat) (pto : Option Nat) (cursor : Cursor)
    (h : (cursor.eat_while (fun ch => ch != '"')).s = []) :
    raw_string_loop n sp pl m pto cursor =
      ((n, some (RawStrError.NoTerminator n m pto)),
        cursor.eat_while (fun ch => ch != '"')) := by
  conv_lhs => unfold raw_string_loop
  dsimp only
  split
  · rfl
  · next a rest heq => rw [h] at heq; cases heq

/-- Equation of `raw_string_loop` when the content scan finds a quote. -/
theorem raw_string_loop_of_cons (n sp pl m : Nat) (pto : Option Nat) (cursor : Cursor)
    (a : Char) (rest : List Char)
    (h : (cursor.eat_while (fun ch => ch != '"')).s = a :: rest) :
    raw_string_loop n sp pl m pto cursor =
      (let c1 := cursor.eat_while (fun ch => ch != '"')
       let c2 : Cursor := ⟨rest, c1.consumed + 1⟩
       let n_end := min ((c2.s.takeWhile (· == '#')).length) n
       let c3 : Cursor := ⟨c2.s.drop n_end, c2.consumed + n_end⟩
       if n_end = n then
         ((n, none), c3)
       else if m < n_end then
         raw_string_loop n sp pl n_end (some (c3.len_consumed - sp - n_end + pl)) c3
       else
         raw_string_loop n sp pl m pto c3) := by
  conv_lhs => unfold raw_string_loop
  dsimp only
  split
  · next heq => rw [h] at heq; cases heq
  · next a' rest' heq =>
    rw [h] at heq
    cases heq
    rfl

/-- Budget `input length + 1` always suffices for the single-quote loop. -/
theorem single_quoted_loopF_eq :
    ∀ (fuel : Nat) (s : List Char) (k : Nat), s.length < fuel →
      single_quoted_loopF fuel s k = some (single_quoted_loop s k)
  | 0, s, _, h => absurd h (by omega)
  | fuel + 1, [], k, _ => rfl
  | fuel + 1, ch :: rest, k, h => by
    rw [single_quoted_loop_cons]
    simp only [single_quoted_loopF]
    split_ifs with h1 h2 h3 h4
    · rfl
    · rfl
    · rfl
    · cases rest with
      | nil => rfl
      | cons b rest2 =>
        exact single_quoted_loopF_eq fuel rest2 (k + 2)
          (by simp only [List.length_cons] at h ⊢; omega)
    · exact single_quoted_loopF_eq fuel rest (k + 1)
        (by simp only [List.length_cons] at h; omega)

/-- Budget `input length + 1` always suffices for the double-quote loop. -/
theorem double_quoted_loopF_eq :
    ∀ (fuel : Nat) (s : List Char) (k : Nat), s.length < fuel →
      double_quoted_loopF fuel s k = some (double_quoted_loop s k)
  | 0, s, _, h => absurd h (by omega)
  | fuel + 1, [], k, _ => rfl
  | fuel + 1, ch :: rest, k, h => by
    rw [double_quoted_loop_cons]
    simp only [double_quoted_loopF]
    split_ifs with h1 h2
    · rfl
    · cases rest with
      | nil => rfl
      | cons b rest2 =>
        exact double_quoted_loopF_eq fuel rest2 (k + 2)
          (by simp only [List.length_cons] at h ⊢; omega)
    · exact double_quoted_loopF_eq fuel rest (k + 1)
        (by simp only [List.length_cons] at h; omega)

/-- Budget `input length + 1` always suffices for the raw-string loop. -/
theorem raw_string_loopF_eq :
    ∀ (fuel : Nat) (n_start sp pl max_hashes : Nat) (pto : Option Nat)
      (cursor : Cursor), cursor.s.length < fuel →
      raw_string_loopF fuel n_start sp pl max_hashes pto cursor =
        some (raw_string_loop n_start sp pl max_hashes pto cursor)
  | 0, _, _, _, _, _, _, h => absurd h (by omega)
  | fuel + 1, n_start, sp, pl, max_hashes, pto, cursor, h => by
    have h1 : (cursor.eat_while (fun ch => ch != '"')).s.length ≤ cursor.s.length := by
      simp only [Cursor.eat_while_s]
      exact dropWhile_length_le _ _
    cases hm : (cursor.eat_while (fun ch => ch != '"')).s with
    | nil =>
      rw [raw_string_loop_of_eof _ _ _ _ _ _ hm]
      simp only [raw_string_loopF]
      rw [hm]
    | cons a rest =>
      rw [raw_string_loop_of_cons _ _ _ _ _ _ a rest hm]
      simp only [raw_string_loopF]
      rw [hm]
      dsimp only
      rw [hm] at h1
      simp only [List.length_cons] at h1
      split_ifs with h2 h3
      · rfl
      · exact raw_string_loopF_eq fuel n_start sp pl _ _ _
          (by simp only [List.length_drop]; omega)
      · exact raw_string_loopF_eq fuel n_start sp pl _ _ _
          (by simp only [List.length_drop]; omega)


/-! ## List helper lemmas -/

theorem takeWhile_replicate_append (p : Char → Bool) (a : Char) (hp : p a = true) :
    ∀ (k : Nat) (rest : List Char),
      (List.replicate k a ++ rest).takeWhile p = List.replicate k a ++ rest.takeWhile p
  | 0, rest => rfl
  | k + 1, rest => by
    simp only [List.replicate_succ, List.cons_append, List.takeWhile_cons, hp, if_true]
    rw [takeWhile_replicate_append p a hp k rest]

theorem dropWhile_replicate_append (p : Char → Bool) (a : Char) (hp : p a = true) :
    ∀ (k : Nat) (rest : List Char),
      (List.replicate k a ++ rest).dropWhile p = rest.dropWhile p
  | 0, rest => rfl
  | k + 1, rest => by
    simp only [List.replicate_succ, List.cons_append, List.dropWhile_cons, hp, if_true]
    exact dropWhile_replicate_append p a hp k rest

theorem dropWhile_head_false (p : Char → Bool) :
    ∀ (l : List Char) (a : Char) (rest : List Char),
      l.dropWhile p = a :: rest → p a = false
  | [], a, rest, h => by simp at h
  | b :: t, a, rest, h => by
    by_cases hpb : p b
    · rw [List.dropWhile_cons, if_pos hpb] at h
      exact dropWhile_head_false p t a rest h
    · rw [List.dropWhile_cons, if_neg hpb] at h
      cases h
      simpa using hpb

theorem take_of_le_takeWhile (p : Char → Bool) :
    ∀ (l : List Char) (k : Nat), k ≤ (l.takeWhile p).length →
      ∀ ch ∈ l.take k, p ch = true
  | _, 0, _, ch, hch => by simp at hch
  | [], _ + 1, _, ch, hch => by simp at hch
  | a :: t, k + 1, hk, ch, hch => by
    by_cases hpa : p a
    · rw [List.takeWhile_cons, if_pos hpa, List.length_cons] at hk
      rw [List.take_succ_cons, List.mem_cons] at hch
      rcases hch with rfl | hch
      · exact hpa
      · exact take_of_le_takeWhile p t k (by omega) ch hch
    · rw [List.takeWhile_cons, if_neg hpa] at hk
      simp at hk

/-! ## `maxClosingRun` case lemmas -/

theorem maxClosingRun_nil (n : Nat) : maxClosingRun n [] = 0 := rfl

theorem maxClosingRun_cons (n : Nat) (ch : Char) (rest : List Char) :
    maxClosingRun n (ch :: rest) =
      if ch = '"' then
        max (min ((rest.takeWhile (· == '#')).length) n) (maxClosingRun n rest)
      else maxClosingRun n rest := by
  conv_lhs => unfold maxClosingRun

theorem maxClosingRun_quote (n : Nat) (rest : List Char) :
    maxClosingRun n ('"' :: rest) =
      max (min ((rest.takeWhile (· == '#')).length) n) (maxClosingRun n rest) := by
  rw [maxClosingRun_cons, if_pos rfl]

theorem maxClosingRun_other (n : Nat) (ch : Char) (rest : List Char) (h : ch ≠ '"') :
    maxClosingRun n (ch :: rest) = maxClosingRun n rest := by
  rw [maxClosingRun_cons, if_neg h]

theorem maxClosingRun_skip (n : Nat) :
    ∀ (pre l : List Char), (∀ ch ∈ pre, ch ≠ '"') →
      maxClosingRun n (pre ++ l) = maxClosingRun n l
  | [], l, _ => rfl
  | a :: pre, l, h => by
    rw [List.cons_append, maxClosingRun_other n a _ (h a (by simp))]
    exact maxClosingRun_skip n pre l (fun ch hch => h ch (by simp [hch]))

theorem maxClosingRun_eq_zero (n : Nat) (l : List Char)
    (h : ∀ ch ∈ l, ch ≠ '"') : maxClosingRun n l = 0 := by
  have := maxClosingRun_skip n l [] h
  simpa using this

/-! ## Characterization of the raw-string loop -/

/-- End-of-input case of the loop characterization: the loop reports
`NoTerminator` carrying the accumulator, and the scanned content holds no
quote at all. -/
theorem raw_string_loop_spec_eof (cursor : Cursor)
    (hm : (cursor.eat_while (fun ch => ch != '"')).s = [])
    (n sp pl m : Nat) (pto : Option Nat)
    (hinv : (m = 0 ∧ pto = none) ∨ (0 < m ∧ m < n ∧ pto ≠ none)) :
    (raw_string_loop n sp pl m pto cursor).1.1 = n ∧
    (∀ e f o, (raw_string_loop n sp pl m pto cursor).1.2 =
        some (RawStrError.NoTerminator e f o) →
      e = n ∧ f = max m (maxClosingRun n cursor.s) ∧
      f ≤ n ∧ (f = n → n = 0) ∧ (o ≠ none ↔ 0 < f)) := by
  rw [raw_string_loop_of_eof _ _ _ _ _ _ hm]
  have hall : ∀ ch ∈ cursor.s, ch ≠ '"' := by
    rw [Cursor.eat_while_s] at hm
    intro ch hch
    have h1 := (List.dropWhile_eq_nil_iff.mp hm) ch hch
    simpa using h1
  have hz : maxClosingRun n cursor.s = 0 := maxClosingRun_eq_zero n _ hall
  refine ⟨rfl, ?_⟩
  intro e f o heq
  simp only [Option.some.injEq, RawStrError.NoTerminator.injEq] at heq
  obtain ⟨he, hf, ho⟩ := heq
  rw [hz]
  rcases hinv with ⟨h1, h2⟩ | ⟨h1, h2, h3⟩
  · subst h1; subst h2
    refine ⟨he.symm, by omega, by omega, by omega, ?_⟩
    rw [← ho, ← hf]
    simp
  · refine ⟨he.symm, by omega, by omega, by omega, ?_⟩
    rw [← ho, ← hf]
    constructor
    · intro _; omega
    · intro _; exact h3

/-- Full characterization of `raw_string_loop`: the returned hash count is
the opening count; on `NoTerminator`, `expected` is the opening count,
`found` is the largest capped closing-hash run over the scanned content
(folded with the accumulator), `found` is at most `expected` with equality
only at zero, and the offset hint is present exactly when `found` is
positive. -/
theorem raw_string_loop_spec :
    ∀ (L : Nat) (cursor : Cursor), cursor.s.length ≤ L →
      ∀ (n sp pl m : Nat) (pto : Option Nat),
        ((m = 0 ∧ pto = none) ∨ (0 < m ∧ m < n ∧ pto ≠ none)) →
        (raw_string_loop n sp pl m pto cursor).1.1 = n ∧
        (∀ e f o, (raw_string_loop n sp pl m pto cursor).1.2 =
            some (RawStrError.NoTerminator e f o) →
          e = n ∧ f = max m (maxClosingRun n cursor.s) ∧
          f ≤ n ∧ (f = n → n = 0) ∧ (o ≠ none ↔ 0 < f)) := by
  intro L
  induction L with
  | zero =>
    intro cursor hc n sp pl m pto hinv
    have hs : cursor.s = [] := List.length_eq_zero.mp (by omega)
    have hm : (cursor.eat_while (fun ch => ch != '"')).s = [] := by
      rw [Cursor.eat_while_s, hs]
      rfl
    exact raw_string_loop_spec_eof cursor hm n sp pl m pto hinv
  | succ L ih =>
    intro cursor hc n sp pl m pto hinv
    cases hm : (cursor.eat_while (fun ch => ch != '"')).s with
    | nil => exact raw_string_loop_spec_eof cursor hm n sp pl m pto hinv
    | cons a rest =>
      have hm' : cursor.s.dropWhile (fun ch => ch != '"') = a :: rest := by
        rw [← Cursor.eat_while_s]
        exact hm
      have ha : a = '"' := by
        have h1 := dropWhile_head_false _ _ _ _ hm'
        simpa using h1
      subst ha
      -- Decompose the input around the quote found by the content scan.
      have hsplit : cursor.s =
          cursor.s.takeWhile (fun ch => ch != '"') ++ ('"' :: rest) := by
        conv_lhs => rw [← List.takeWhile_append_dropWhile
          (p := fun ch => ch != '"') (l := cursor.s)]
        rw [hm']
      have hmcr : maxClosingRun n cursor.s =
          max (min ((rest.takeWhile (fun x => x == '#')).length) n)
            (maxClosingRun n
              (rest.drop (min ((rest.takeWhile (fun x => x == '#')).length) n))) := by
        rw [hsplit, maxClosingRun_skip n _ _ ?pre, maxClosingRun_quote]
        case pre =>
          intro ch hch
          have h1 := List.mem_takeWhile_imp hch
          simpa using h1
        have h2 : maxClosingRun n rest =
            maxClosingRun n
              (rest.drop (min ((rest.takeWhile (fun x => x == '#')).length) n)) := by
          conv_lhs => rw [← List.take_append_drop
            (min ((rest.takeWhile (fun x => x == '#')).length) n) rest]
          refine maxClosingRun_skip n _ _ ?_
          intro ch hch
          have h3 := take_of_le_takeWhile (· == '#') rest _
            (Nat.min_le_left _ _) ch hch
          have h4 : ch = '#' := by simpa using h3
          rw [h4]
          decide
        rw [h2]
      have hrl : rest.length ≤ L := by
        have h1 : (cursor.s.dropWhile (fun ch => ch != '"')).length ≤ cursor.s.length :=
          dropWhile_length_le _ _
        rw [hm'] at h1
        simp only [List.length_cons] at h1
        omega
      rw [raw_string_loop_of_cons _ _ _ _ _ _ _ rest hm]
      dsimp only
      split_ifs with h2 h3
      · -- Matching closing run: success, no `NoTerminator` to consider.
        refine ⟨rfl, ?_⟩
        intro e f o heq
        simp at heq
      · -- A strictly better partial run is recorded.
        set kk := (List.takeWhile (fun x => x == '#') rest).length ⊓ n with hkk
        have hlen : (List.drop kk rest).length ≤ L := by
          simp only [List.length_drop]
          omega
        obtain ⟨ihfst, ihnt⟩ := ih
          ⟨List.drop kk rest, (cursor.eat_while (fun ch => ch != '"')).consumed + 1 + kk⟩
          hlen n sp pl kk
          (some ((⟨List.drop kk rest,
            (cursor.eat_while (fun ch => ch != '"')).consumed + 1 + kk⟩ :
              Cursor).len_consumed - sp - kk + pl))
          (Or.inr ⟨by omega, by omega, by simp⟩)
        refine ⟨ihfst, ?_⟩
        intro e f o heq
        obtain ⟨he, hf, hb1, hb2, hb3⟩ := ihnt e f o heq
        dsimp only at hf
        refine ⟨he, ?_, hb1, hb2, hb3⟩
        rw [hmcr]
        omega
      · -- The partial run is not better: accumulator unchanged.
        set kk := (List.takeWhile (fun x => x == '#') rest).length ⊓ n with hkk
        have hlen : (List.drop kk rest).length ≤ L := by
          simp only [List.length_drop]
          omega
        obtain ⟨ihfst, ihnt⟩ := ih
          ⟨List.drop kk rest, (cursor.eat_while (fun ch => ch != '"')).consumed + 1 + kk⟩
          hlen n sp pl m pto hinv
        refine ⟨ihfst, ?_⟩
        intro e f o heq
        obtain ⟨he, hf, hb1, hb2, hb3⟩ := ihnt e f o heq
        dsimp only at hf
        refine ⟨he, ?_, hb1, hb2, hb3⟩
        rw [hmcr]
        omega

/-! ## Equations of `raw_string_unvalidated` -/

theorem Cursor.bump_of_nil {c : Cursor} (h : c.s = []) : c.bump = (none, c) := by
  obtain ⟨s, k⟩ := c
  replace h : s = [] := h
  subst h
  rfl

theorem Cursor.bump_of_cons {c : Cursor} {a : Char} {t : List Char} (h : c.s = a :: t) :
    c.bump = (some a, ⟨t, c.consumed + 1⟩) := by
  obtain ⟨s, k⟩ := c
  replace h : s = a :: t := h
  subst h
  rfl

theorem takeWhile_append_of_all (p : Char → Bool) :
    ∀ (l1 l2 : List Char), (∀ ch ∈ l1, p ch = true) →
      (l1 ++ l2).takeWhile p = l1 ++ l2.takeWhile p
  | [], l2, _ => rfl
  | a :: l1, l2, h => by
    rw [List.cons_append, List.takeWhile_cons, if_pos (h a (by simp)), List.cons_append]
    rw [takeWhile_append_of_all p l1 l2 (fun ch hch => h ch (by simp [hch]))]

theorem dropWhile_append_of_all (p : Char → Bool) :
    ∀ (l1 l2 : List Char), (∀ ch ∈ l1, p ch = true) →
      (l1 ++ l2).dropWhile p = l2.dropWhile p
  | [], l2, _ => rfl
  | a :: l1, l2, h => by
    rw [List.cons_append, List.dropWhile_cons, if_pos (h a (by simp))]
    exact dropWhile_append_of_all p l1 l2 (fun ch hch => h ch (by simp [hch]))

/-- `raw_string_unvalidated` when no character follows the opening hashes. -/
theorem raw_string_unvalidated_of_nil (cursor : Cursor) (pl : Nat)
    (h : (cursor.eat_while (· == '#')).s = []) :
    raw_string_unvalidated cursor pl =
      (((cursor.s.takeWhile (· == '#')).length,
          some (RawStrError.InvalidStarter EOF_CHAR)),
        cursor.eat_while (· == '#')) := by
  unfold raw_string_unvalidated
  dsimp only
  rw [Cursor.bump_of_nil h]

/-- `raw_string_unvalidated` when the character after the opening hashes is
not a quote. -/
theorem raw_string_unvalidated_of_bad (cursor : Cursor) (pl : Nat)
    (a : Char) (rest : List Char) (ha : a ≠ '"')
    (h : (cursor.eat_while (· == '#')).s = a :: rest) :
    raw_string_unvalidated cursor pl =
      (((cursor.s.takeWhile (· == '#')).length,
          some (RawStrError.InvalidStarter a)),
        ⟨rest, (cursor.eat_while (· == '#')).consumed + 1⟩) := by
  unfold raw_string_unvalidated
  dsimp only
  rw [Cursor.bump_of_cons h]
  dsimp only
  rw [if_neg ha]

/-- `raw_string_unvalidated` when the opening quote is found: the scan
continues in `raw_string_loop`. -/
theorem raw_string_unvalidated_quote (cursor : Cursor) (pl : Nat)
    (rest : List Char)
    (h : (cursor.eat_while (· == '#')).s = '"' :: rest) :
    raw_string_unvalidated cursor pl =
      raw_string_loop ((cursor.s.takeWhile (· == '#')).length)
        cursor.len_consumed pl 0 none
        ⟨rest, (cursor.eat_while (· == '#')).consumed + 1⟩ := by
  unfold raw_string_unvalidated
  dsimp only
  rw [Cursor.bump_of_cons h]
  rfl

/-- The hash count returned by `raw_string_unvalidated` is always the length
of the opening hash run. -/
theorem raw_string_unvalidated_fst (cursor : Cursor) (pl : Nat) :
    (raw_string_unvalidated cursor pl).1.1 =
      (cursor.s.takeWhile (· == '#')).length := by
  cases hs : (cursor.eat_while (· == '#')).s with
  | nil => rw [raw_string_unvalidated_of_nil cursor pl hs]
  | cons a rest =>
    by_cases ha : a = '"'
    · subst ha
      rw [raw_string_unvalidated_quote cursor pl rest hs]
      exact (raw_string_loop_spec rest.length
        ⟨rest, (cursor.eat_while (· == '#')).consumed + 1⟩ (Nat.le_refl _)
        ((cursor.s.takeWhile (· == '#')).length) cursor.len_consumed pl 0 none
        (Or.inl ⟨rfl, rfl⟩)).1
    · rw [raw_string_unvalidated_of_bad cursor pl a rest ha hs]

/-- Payload facts of a `NoTerminator` result of `raw_string_unvalidated`. -/
theorem raw_string_unvalidated_noterm (cursor : Cursor) (pl nh e f : Nat)
    (o : Option Nat) (c' : Cursor)
    (h : raw_string_unvalidated cursor pl =
      ((nh, some (RawStrError.NoTerminator e f o)), c')) :
    e = nh ∧ nh = (cursor.s.takeWhile (· == '#')).length ∧
    f = maxClosingRun nh ((cursor.s.dropWhile (· == '#')).drop 1) ∧
    f ≤ e ∧ (f = e → e = 0) ∧ (o ≠ none ↔ 0 < f) := by
  cases hs : (cursor.eat_while (· == '#')).s with
  | nil =>
    rw [raw_string_unvalidated_of_nil cursor pl hs] at h
    simp at h
  | cons a rest =>
    by_cases ha : a = '"'
    · subst ha
      rw [raw_string_unvalidated_quote cursor pl rest hs] at h
      obtain ⟨hfst, hnt⟩ := raw_string_loop_spec rest.length
        ⟨rest, (cursor.eat_while (· == '#')).consumed + 1⟩ (Nat.le_refl _)
        ((cursor.s.takeWhile (· == '#')).length) cursor.len_consumed pl 0 none
        (Or.inl ⟨rfl, rfl⟩)
      rw [h] at hfst
      dsimp only at hfst
      obtain ⟨he, hf, hb1, hb2, hb3⟩ := hnt e f o (by rw [h])
      dsimp only at hf
      have hrest : (cursor.s.dropWhile (· == '#')).drop 1 = rest := by
        rw [Cursor.eat_while_s] at hs
        rw [hs]
        rfl
      rw [hrest, hfst]
      refine ⟨by omega, rfl, by omega, by omega, by omega, hb3⟩
    · rw [raw_string_unvalidated_of_bad cursor pl a rest ha hs] at h
      simp [ha] at h

/-- Success case of the raw-string loop: content without quotes, then the
closing quote, then at least `n` hashes — exactly `n` of them consumed. -/
theorem raw_string_loop_success (n sp pl : Nat) (body close : List Char) (k : Nat)
    (hb : ∀ ch ∈ body, ch ≠ '"')
    (hcl : n ≤ (close.takeWhile (· == '#')).length) :
    raw_string_loop n sp pl 0 none ⟨body ++ '"' :: close, k⟩ =
      ((n, none), ⟨close.drop n, k + body.length + 1 + n⟩) := by
  have hall : ∀ ch ∈ body, (fun ch => ch != '"') ch = true := by
    intro ch hch
    simpa using hb ch hch
  have hm : ((⟨body ++ '"' :: close, k⟩ : Cursor).eat_while
      (fun ch => ch != '"')).s = '"' :: close := by
    rw [Cursor.eat_while_s]
    dsimp only
    rw [dropWhile_append_of_all _ body _ hall, List.dropWhile_cons,
      if_neg (by decide)]
  rw [raw_string_loop_of_cons _ _ _ _ _ _ _ close hm]
  dsimp only
  have hmin : min ((close.takeWhile (fun x => x == '#')).length) n = n := by
    omega
  rw [hmin, if_pos rfl]
  have hcons : ((⟨body ++ '"' :: close, k⟩ : Cursor).eat_while
      (fun ch => ch != '"')).consumed = k + body.length := by
    rw [Cursor.eat_while_consumed]
    dsimp only
    rw [takeWhile_append_of_all _ body _ hall, List.takeWhile_cons,
      if_neg (by decide), List.append_nil]
  rw [hcons]

/-- `raw_string_unvalidated` on an input of `n` hashes then a quote: counts
the hashes and enters the loop. -/
theorem raw_string_unvalidated_replicate (n k pl : Nat) (rest : List Char) :
    raw_string_unvalidated ⟨List.replicate n '#' ++ '"' :: rest, k⟩ pl =
      raw_string_loop n k pl 0 none ⟨rest, k + n + 1⟩ := by
  have hw : ((⟨List.replicate n '#' ++ '"' :: rest, k⟩ : Cursor).eat_while
      (· == '#')).s = '"' :: rest := by
    rw [Cursor.eat_while_s]
    dsimp only
    rw [dropWhile_replicate_append _ '#' (by decide) n _, List.dropWhile_cons,
      if_neg (by decide)]
  rw [raw_string_unvalidated_quote _ pl rest hw]
  have htw : (((⟨List.replicate n '#' ++ '"' :: rest, k⟩ : Cursor).s).takeWhile
      (· == '#')).length = n := by
    dsimp only
    rw [takeWhile_replicate_append _ '#' (by decide) n _, List.takeWhile_cons,
      if_neg (by decide), List.append_nil, List.length_replicate]
  have hc : ((⟨List.replicate n '#' ++ '"' :: rest, k⟩ : Cursor).eat_while
      (· == '#')).consumed = k + n := by
    rw [Cursor.eat_while_consumed]
    dsimp only
    rw [takeWhile_replicate_append _ '#' (by decide) n _, List.takeWhile_cons,
      if_neg (by decide), List.append_nil, List.length_replicate]
  rw [htw, hc]
  rfl

/-- Transfer a budgeted concrete evaluation to `raw_string_loop`. -/
theorem raw_string_loop_eval {n sp pl m : Nat} {pto : Option Nat} {c : Cursor}
    {r : (Nat × Option RawStrError) × Cursor} (fuel : Nat)
    (hfuel : c.s.length < fuel)
    (h : raw_string_loopF fuel n sp pl m pto c = some r) :
    raw_string_loop n sp pl m pto c = r := by
  rw [raw_string_loopF_eq fuel n sp pl m pto c hfuel] at h
  exact Option.some.inj h

/-! ## Claim C2 — raw-string round trip -/

/-- C2.  Raw-string round trip: for `n ≤ 10` and a quote-free body, scanning
`#`^n `"` body `"` `#`^n (cursor just past the `r`) returns `(n, none)` with
the input fully consumed; with one extra trailing `#` the result is the same
`(n, none)` and exactly that one `#` is left unconsumed. -/
theorem c2_claim (n : Nat) (hn : n ≤ 10) (body : List Char) (hb : '"' ∉ body)
    (k pfx : Nat) :
    (raw_string_unvalidated
        ⟨List.replicate n '#' ++ '"' :: (body ++ '"' :: List.replicate n '#'), k⟩ pfx =
      ((n, none), ⟨[], k + n + 1 + body.length + 1 + n⟩)) ∧
    (raw_string_unvalidated
        ⟨List.replicate n '#' ++ '"' :: (body ++ '"' :: (List.replicate n '#' ++ ['#'])), k⟩ pfx =
      ((n, none), ⟨['#'], k + n + 1 + body.length + 1 + n⟩)) := by
  have hb' : ∀ ch ∈ body, ch ≠ '"' := fun ch hch he => hb (he ▸ hch)
  have hrep : (List.replicate n '#').takeWhile (· == '#') = List.replicate n '#' := by
    rw [List.takeWhile_eq_self_iff]
    intro a ha
    rw [List.eq_of_mem_replicate ha]
    decide
  constructor
  · rw [raw_string_unvalidated_replicate]
    rw [raw_string_loop_success n k pfx body (List.replicate n '#') (k + n + 1) hb'
      (by rw [hrep, List.length_replicate])]
    rw [List.drop_of_length_le (by rw [List.length_replicate])]
  · rw [raw_string_unvalidated_replicate]
    rw [raw_string_loop_success n k pfx body (List.replicate n '#' ++ ['#']) (k + n + 1) hb'
      (by rw [takeWhile_replicate_append _ '#' (by decide) n ['#'],
              List.length_append, List.length_replicate]
          omega)]
    rw [List.drop_left' (List.length_replicate n '#')]

/-- Witness for C2 at `n = 2`, body `abc`. -/
theorem c2_witness :
    (raw_string_unvalidated
        ⟨List.replicate 2 '#' ++ '"' :: (['a', 'b', 'c'] ++ '"' :: List.replicate 2 '#'), 1⟩ 1 =
      ((2, none), ⟨[], 1 + 2 + 1 + 3 + 1 + 2⟩)) ∧
    (raw_string_unvalidated
        ⟨List.replicate 2 '#' ++ '"' :: (['a', 'b', 'c'] ++ '"' :: (List.replicate 2 '#' ++ ['#'])), 1⟩ 1 =
      ((2, none), ⟨['#'], 1 + 2 + 1 + 3 + 1 + 2⟩)) :=
  c2_claim 2 (by decide) ['a', 'b', 'c'] (by decide) 1 1

/-! ## Claim C4 — raw-string mismatch reporting -/

/-- C4.  On a `NoTerminator` outcome, `expected` equals the returned and
opening hash count and `found` is the largest capped closing-hash run seen at
any quote of the scanned content; concretely, scanning `##"abc"#` just past
the `r` of `r##"abc"#` yields `NoTerminator` with `expected` 2, `found` 1 and
offset hint 8, the position of the lone `#` run. -/
theorem c4_claim :
    (raw_string_unvalidated ⟨['#', '#', '"', 'a', 'b', 'c', '"', '#'], 1⟩ 1 =
      ((2, some (RawStrError.NoTerminator 2 1 (some 8))), ⟨[], 9⟩)) ∧
    (∀ (cursor : Cursor) (pl nh e f : Nat) (o : Option Nat) (c' : Cursor),
      raw_string_unvalidated cursor pl =
          ((nh, some (RawStrError.NoTerminator e f o)), c') →
        e = nh ∧ nh = (cursor.s.takeWhile (· == '#')).length ∧
        f = maxClosingRun nh ((cursor.s.dropWhile (· == '#')).drop 1)) := by
  constructor
  · exact (raw_string_unvalidated_replicate 2 1 1 ['a', 'b', 'c', '"', '#']).trans
      (raw_string_loop_eval 6 (by decide) (by decide))
  · intro cursor pl nh e f o c' h
    obtain ⟨h1, h2, h3, _, _, _⟩ := raw_string_unvalidated_noterm cursor pl nh e f o c' h
    exact ⟨h1, h2, h3⟩

/-- Witness for C4's universal part, at the mismatch input itself. -/
theorem c4_witness :
    2 = 2 ∧
    2 = (((⟨['#', '#', '"', 'a', 'b', 'c', '"', '#'], 1⟩ : Cursor).s).takeWhile (· == '#')).length ∧
    1 = maxClosingRun 2
      ((((⟨['#', '#', '"', 'a', 'b', 'c', '"', '#'], 1⟩ : Cursor).s).dropWhile (· == '#')).drop 1) :=
  c4_claim.2 ⟨['#', '#', '"', 'a', 'b', 'c', '"', '#'], 1⟩ 1 2 2 1 (some 8) ⟨[], 9⟩
    c4_claim.1

/-! ## Claim C10 — NoTerminator payload invariant -/

/-- C10.  Whenever `raw_string_unvalidated` reports `NoTerminator`, `found`
is at most `expected`, they are equal only when both are 0, and the offset
hint is present exactly when `found` is positive. -/
theorem c10_claim (cursor : Cursor) (pl nh e f : Nat) (o : Option Nat) (c' : Cursor)
    (h : raw_string_unvalidated cursor pl =
      ((nh, some (RawStrError.NoTerminator e f o)), c')) :
    f ≤ e ∧ (f = e → e = 0) ∧ (o ≠ none ↔ 0 < f) := by
  obtain ⟨_, _, _, h4, h5, h6⟩ := raw_string_unvalidated_noterm cursor pl nh e f o c' h
  exact ⟨h4, h5, h6⟩

/-- Witness for C10 at `#"x` (no closing quote at all). -/
theorem c10_witness :
    0 ≤ 1 ∧ (0 = 1 → 1 = 0) ∧ ((none : Option Nat) ≠ none ↔ 0 < 0) :=
  c10_claim ⟨['#', '"', 'x'], 1⟩ 1 1 1 0 none ⟨[], 4⟩
    ((raw_string_unvalidated_replicate 1 1 1 ['x']).trans
      (raw_string_loop_eval 2 (by decide) (by decide)))

/-! ## Claim C5 — too many delimiters -/

/-- C5.  `raw_double_quoted_string` consumes exactly what
`raw_string_unvalidated` consumes; when the opening hash run exceeds 65535
the result is overridden to `(0, TooManyDelimiters found)` with `found` the
true unbounded count, and otherwise the reported hash count is exactly the
opening count. -/
theorem c5_claim (cursor : Cursor) (pfx : Nat) :
    (65535 < (cursor.s.takeWhile (· == '#')).length →
      raw_double_quoted_string cursor pfx =
        ((0, some (RawStrError.TooManyDelimiters
            ((cursor.s.takeWhile (· == '#')).length))),
          (raw_string_unvalidated cursor pfx).2)) ∧
    ((cursor.s.takeWhile (· == '#')).length ≤ 65535 →
      (raw_double_quoted_string cursor pfx).1.1 =
          (cursor.s.takeWhile (· == '#')).length ∧
        raw_double_quoted_string cursor pfx = raw_string_unvalidated cursor pfx) := by
  have hfst := raw_string_unvalidated_fst cursor pfx
  rcases hres : raw_string_unvalidated cursor pfx with ⟨⟨nn, err⟩, cc⟩
  rw [hres] at hfst
  dsimp only at hfst
  constructor
  · intro hgt
    unfold raw_double_quoted_string
    rw [hres]
    dsimp only
    rw [if_neg (by omega)]
    rw [hfst]
  · intro hle
    unfold raw_double_quoted_string
    rw [hres]
    dsimp only
    rw [if_pos (by omega)]
    exact ⟨hfst, rfl⟩

/-- Witness for C5: an opening run of 65536 hashes is overridden; a single
hash is reported faithfully. -/
theorem c5_witness :
    (raw_double_quoted_string ⟨List.replicate 65536 '#' ++ ['"', '"'], 1⟩ 1 =
      ((0, some (RawStrError.TooManyDelimiters 65536)),
        (raw_string_unvalidated ⟨List.replicate 65536 '#' ++ ['"', '"'], 1⟩ 1).2)) ∧
    (raw_double_quoted_string ⟨['#', '"', '"'], 1⟩ 1).1.1 = 1 := by
  have hlen : (((⟨List.replicate 65536 '#' ++ ['"', '"'], 1⟩ : Cursor).s).takeWhile
      (· == '#')).length = 65536 := by
    dsimp only
    rw [takeWhile_replicate_append _ '#' (by decide) 65536 ['"', '"']]
    rw [show (['"', '"'] : List Char).takeWhile (· == '#') = [] from by decide]
    rw [List.append_nil, List.length_replicate]
  constructor
  · have h := (c5_claim ⟨List.replicate 65536 '#' ++ ['"', '"'], 1⟩ 1).1
      (by rw [hlen]; omega)
    rw [hlen] at h
    exact h
  · exact ((c5_claim ⟨['#', '"', '"'], 1⟩ 1).2 (by decide)).1.trans (by decide)

/-! ## Claim C1 — radix of the main digit run -/

/-- C1 fails on the code: after a `0b` prefix the main digit run is the
*decimal* eater, so it consumes the character `2` (outside `{0, 1, _}`) —
`0b2` is scanned as a binary `Int` whose digit run ate the `2`. -/
theorem c1_counterexample :
    number ⟨['b', '2'], 1⟩ '0' = (LiteralKind.Int Base.Binary false, ⟨[], 3⟩) ∧
    Cursor.eat_decimal_digits ⟨['2'], 2⟩ = (true, ⟨[], 3⟩) ∧
    ['2'].takeWhile Cursor.isDecOrSep = ['2'] := by decide

/-- C1 amended.  After a `0b` or `0o` prefix the main digit run is the
decimal eater — it consumes exactly the maximal run of decimal digits and
underscores (permissively, radix validity being left to later validation);
after `0x` it consumes exactly the maximal run of hexadecimal digits and
underscores.  Every consumed character is a decimal (resp. hexadecimal)
digit or an underscore. -/
theorem c1_claim (s : List Char) (k : Nat) :
    (number ⟨'b' :: s, k⟩ '0' =
      (if !(Cursor.eat_decimal_digits ⟨s, k + 1⟩).1 then
        (LiteralKind.Int Base.Binary true, (Cursor.eat_decimal_digits ⟨s, k + 1⟩).2)
      else numberAfterDigits Base.Binary (Cursor.eat_decimal_digits ⟨s, k + 1⟩).2)) ∧
    (number ⟨'o' :: s, k⟩ '0' =
      (if !(Cursor.eat_decimal_digits ⟨s, k + 1⟩).1 then
        (LiteralKind.Int Base.Octal true, (Cursor.eat_decimal_digits ⟨s, k + 1⟩).2)
      else numberAfterDigits Base.Octal (Cursor.eat_decimal_digits ⟨s, k + 1⟩).2)) ∧
    (number ⟨'x' :: s, k⟩ '0' =
      (if !(Cursor.eat_hexadecimal_digits ⟨s, k + 1⟩).1 then
        (LiteralKind.Int Base.Hexadecimal true, (Cursor.eat_hexadecimal_digits ⟨s, k + 1⟩).2)
      else numberAfterDigits Base.Hexadecimal (Cursor.eat_hexadecimal_digits ⟨s, k + 1⟩).2)) ∧
    ((Cursor.eat_decimal_digits ⟨s, k + 1⟩).2 =
      ⟨s.dropWhile Cursor.isDecOrSep, (k + 1) + (s.takeWhile Cursor.isDecOrSep).length⟩) ∧
    (∀ ch ∈ s.takeWhile Cursor.isDecOrSep, ch.isDigit = true ∨ ch = '_') ∧
    ((Cursor.eat_hexadecimal_digits ⟨s, k + 1⟩).2 =
      ⟨s.dropWhile Cursor.isHexOrSep, (k + 1) + (s.takeWhile Cursor.isHexOrSep).length⟩) ∧
    (∀ ch ∈ s.takeWhile Cursor.isHexOrSep, Cursor.isHexDig ch = true ∨ ch = '_') := by
  refine ⟨rfl, rfl, rfl, rfl, ?_, rfl, ?_⟩
  · intro ch hch
    have h1 := List.mem_takeWhile_imp hch
    simp only [Cursor.isDecOrSep, Bool.or_eq_true, beq_iff_eq] at h1
    exact h1
  · intro ch hch
    have h1 := List.mem_takeWhile_imp hch
    simp only [Cursor.isHexOrSep, Bool.or_eq_true, beq_iff_eq] at h1
    exact h1

/-- Witness for C1's amended run-membership at the run `2` of `0b2z`. -/
theorem c1_witness :
    '2'.isDigit = true ∨ '2' = '_' :=
  (c1_claim ['2', 'z'] 0).2.2.2.2.1 '2' (by decide)

/-! ## Claim C3 — fractional-dot rule and empty exponents -/

theorem Cursor.bump_s_suffix (c : Cursor) : ((c.bump).2).s <:+ c.s := by
  obtain ⟨s, k⟩ := c
  cases s with
  | nil => exact List.suffix_refl _
  | cons a t => exact List.suffix_cons a t

theorem Cursor.eat_while_s_suffix (c : Cursor) (p : Char → Bool) :
    (c.eat_while p).s <:+ c.s := by
  rw [Cursor.eat_while_s]
  exact List.dropWhile_suffix p

theorem Cursor.eat_decimal_digits_s_suffix (c : Cursor) :
    ((c.eat_decimal_digits).2).s <:+ c.s :=
  Cursor.eat_while_s_suffix c _

theorem Cursor.eat_hexadecimal_digits_s_suffix (c : Cursor) :
    ((c.eat_hexadecimal_digits).2).s <:+ c.s :=
  Cursor.eat_while_s_suffix c _

/-- An `empty_exponent` flag out of the trailing inspection can only come
from an `e`/`E` actually reached and an exponent eater that found no
digits. -/
theorem numberAfterDigits_float_true (b : Base) (c : Cursor) (b' : Base)
    (h : (numberAfterDigits b c).1 = LiteralKind.Float b' true) :
    ∃ cm : Cursor, cm.s <:+ c.s ∧ (cm.first = 'e' ∨ cm.first = 'E') ∧
      (Cursor.eat_float_exponent ((cm.bump).2)).1 = false ∧
      (numberAfterDigits b c).2 = (Cursor.eat_float_exponent ((cm.bump).2)).2 := by
  unfold numberAfterDigits at h ⊢
  dsimp only at h ⊢
  split_ifs at h ⊢ with h1 h2 h3 h4
  · dsimp only at h ⊢
    simp only [LiteralKind.Float.injEq] at h
    exact ⟨(Cursor.eat_decimal_digits ((c.bump).2)).2,
      (Cursor.eat_decimal_digits_s_suffix _).trans (Cursor.bump_s_suffix c),
      h3, by simpa using h.2, rfl⟩
  · simp at h
  · simp at h
  · dsimp only at h ⊢
    simp only [LiteralKind.Float.injEq] at h
    exact ⟨c, List.suffix_refl _, h4, by simpa using h.2, rfl⟩

/-- An `empty_exponent` flag out of `number` comes from an `e`/`E` reached
in the input with an exponent eater that found no digits; the scanner stops
exactly where the exponent eater stopped. -/
theorem number_float_true (s : List Char) (k : Nat) (d : Char) (b' : Base)
    (h : (number ⟨s, k⟩ d).1 = LiteralKind.Float b' true) :
    ∃ cm : Cursor, cm.s <:+ s ∧ (cm.first = 'e' ∨ cm.first = 'E') ∧
      (Cursor.eat_float_exponent ((cm.bump).2)).1 = false ∧
      (number ⟨s, k⟩ d).2 = (Cursor.eat_float_exponent ((cm.bump).2)).2 := by
  unfold number at h ⊢
  dsimp only at h ⊢
  split_ifs at h ⊢ with hd hb hb2 ho ho2 hx hx2 hcl
  all_goals
    obtain ⟨cm, hsfx, hcond, hemp, hsnd⟩ := numberAfterDigits_float_true _ _ _ h
  all_goals refine ⟨cm, hsfx.trans ?_, hcond, hemp, hsnd⟩
  all_goals
    first
      | exact (Cursor.eat_decimal_digits_s_suffix _).trans (Cursor.bump_s_suffix _)
      | exact (Cursor.eat_hexadecimal_digits_s_suffix _).trans (Cursor.bump_s_suffix _)
      | exact Cursor.eat_decimal_digits_s_suffix _

/-- C3.  Fractional-dot rule: `12.foo` stays an Int stopped before the dot;
`0..2` is never a Float; `1.5` is a Float without empty exponent; `1.5e` has
an empty exponent, `1.5e3` does not; and universally an `empty_exponent`
flag arises only when an `e`/`E` was actually reached and the exponent eater
found no digits. -/
theorem c3_claim :
    (number ⟨['2', '.', 'f', 'o', 'o'], 1⟩ '1' =
      (LiteralKind.Int Base.Decimal false, ⟨['.', 'f', 'o', 'o'], 2⟩)) ∧
    (∀ (b : Base) (e : Bool),
      (number ⟨['.', '.', '2'], 1⟩ '0').1 ≠ LiteralKind.Float b e) ∧
    (number ⟨['.', '5'], 1⟩ '1' = (LiteralKind.Float Base.Decimal false, ⟨[], 3⟩)) ∧
    ((number ⟨['.', '5', 'e'], 1⟩ '1').1 = LiteralKind.Float Base.Decimal true) ∧
    ((number ⟨['.', '5', 'e', '3'], 1⟩ '1').1 = LiteralKind.Float Base.Decimal false) ∧
    (∀ (s : List Char) (k : Nat) (d : Char) (b' : Base),
      (number ⟨s, k⟩ d).1 = LiteralKind.Float b' true →
      ∃ cm : Cursor, cm.s <:+ s ∧ (cm.first = 'e' ∨ cm.first = 'E') ∧
        (Cursor.eat_float_exponent ((cm.bump).2)).1 = false ∧
        (number ⟨s, k⟩ d).2 = (Cursor.eat_float_exponent ((cm.bump).2)).2) :=
  ⟨by decide,
   by
    intro b e h
    rw [show (number ⟨['.', '.', '2'], 1⟩ '0').1 = LiteralKind.Int Base.Decimal false
      from by decide] at h
    exact LiteralKind.noConfusion h,
   by decide, by decide, by decide, number_float_true⟩

/-- Witness for C3's universal part at the input `1.5e`. -/
theorem c3_witness :
    ∃ cm : Cursor, cm.s <:+ ['.', '5', 'e'] ∧ (cm.first = 'e' ∨ cm.first = 'E') ∧
      (Cursor.eat_float_exponent ((cm.bump).2)).1 = false ∧
      (number ⟨['.', '5', 'e'], 1⟩ '1').2 = (Cursor.eat_float_exponent ((cm.bump).2)).2 :=
  c3_claim.2.2.2.2.2 ['.', '5', 'e'] 1 '1' Base.Decimal (by decide)

/-! ## Claim C7 — empty_int characterization -/

/-- The trailing inspection never reports an empty Int. -/
theorem numberAfterDigits_ne_empty_int (b : Base) (c : Cursor) (b' : Base) :
    (numberAfterDigits b c).1 ≠ LiteralKind.Int b' true := by
  unfold numberAfterDigits
  dsimp only
  split_ifs <;> simp

theorem Cursor.bump_snd_of_first {c : Cursor} {a : Char} (ha : a ≠ EOF_CHAR)
    (h : c.first = a) : (c.bump).2 = ⟨c.s.tail, c.consumed + 1⟩ := by
  obtain ⟨s, k⟩ := c
  cases s with
  | nil => exact absurd h.symm ha
  | cons b t => rfl

/-- C7.  `number` reports `Int { base, empty_int := true }` exactly when a
radix prefix was matched and the digit run right after it accepted no
non-underscore digit; in that case the scanner stops at the end of that
digit run (no fractional or exponent scanning). -/
theorem c7_claim (s : List Char) (k : Nat) (d : Char) :
    ((∃ b, (number ⟨s, k⟩ d).1 = LiteralKind.Int b true) ↔
      (d = '0' ∧
        (((⟨s, k⟩ : Cursor).first = 'b' ∧
            (Cursor.eat_decimal_digits ⟨s.tail, k + 1⟩).1 = false) ∨
         ((⟨s, k⟩ : Cursor).first = 'o' ∧
            (Cursor.eat_decimal_digits ⟨s.tail, k + 1⟩).1 = false) ∨
         ((⟨s, k⟩ : Cursor).first = 'x' ∧
            (Cursor.eat_hexadecimal_digits ⟨s.tail, k + 1⟩).1 = false)))) ∧
    (∀ b, (number ⟨s, k⟩ d).1 = LiteralKind.Int b true →
      (number ⟨s, k⟩ d).2 =
        (if b = Base.Hexadecimal then (Cursor.eat_hexadecimal_digits ⟨s.tail, k + 1⟩).2
         else (Cursor.eat_decimal_digits ⟨s.tail, k + 1⟩).2)) := by
  unfold number
  dsimp only
  split_ifs with hd hb hb2 ho ho2 hx hx2 hcl
  · -- 0b with no digits
    have hfb : ((⟨s, k⟩ : Cursor).bump).2 = ⟨s.tail, k + 1⟩ :=
      Cursor.bump_snd_of_first (by decide) hb
    rw [hfb] at hb2 ⊢
    constructor
    · exact iff_of_true ⟨Base.Binary, rfl⟩
        ⟨hd, Or.inl ⟨hb, by simpa using hb2⟩⟩
    · intro b hbb
      simp only [LiteralKind.Int.injEq] at hbb
      rw [← hbb.1]
      rfl
  · -- 0b with digits
    have hfb : ((⟨s, k⟩ : Cursor).bump).2 = ⟨s.tail, k + 1⟩ :=
      Cursor.bump_snd_of_first (by decide) hb
    constructor
    · apply iff_of_false
      · rintro ⟨b, hbb⟩
        exact numberAfterDigits_ne_empty_int _ _ _ hbb
      · rintro ⟨-, ⟨-, h1⟩ | ⟨h1, -⟩ | ⟨h1, -⟩⟩
        · rw [← hfb] at h1
          simp only [h1] at hb2
          exact hb2 rfl
        · exact absurd (hb.symm.trans h1) (by decide)
        · exact absurd (hb.symm.trans h1) (by decide)
    · intro b hbb
      exact absurd hbb (numberAfterDigits_ne_empty_int _ _ _)
  · -- 0o with no digits
    have hfb : ((⟨s, k⟩ : Cursor).bump).2 = ⟨s.tail, k + 1⟩ :=
      Cursor.bump_snd_of_first (by decide) ho
    rw [hfb] at ho2 ⊢
    constructor
    · exact iff_of_true ⟨Base.Octal, rfl⟩
        ⟨hd, Or.inr (Or.inl ⟨ho, by simpa using ho2⟩)⟩
    · intro b hbb
      simp only [LiteralKind.Int.injEq] at hbb
      rw [← hbb.1]
      rfl
  · -- 0o with digits
    have hfo : ((⟨s, k⟩ : Cursor).bump).2 = ⟨s.tail, k + 1⟩ :=
      Cursor.bump_snd_of_first (by decide) ho
    constructor
    · apply iff_of_false
      · rintro ⟨b, hbb⟩
        exact numberAfterDigits_ne_empty_int _ _ _ hbb
      · rintro ⟨-, ⟨h1, -⟩ | ⟨-, h1⟩ | ⟨h1, -⟩⟩
        · exact absurd (ho.symm.trans h1) (by decide)
        · rw [← hfo] at h1
          simp only [h1] at ho2
          exact ho2 rfl
        · exact absurd (ho.symm.trans h1) (by decide)
    · intro b hbb
      exact absurd hbb (numberAfterDigits_ne_empty_int _ _ _)
  · -- 0x with no digits
    have hfx : ((⟨s, k⟩ : Cursor).bump).2 = ⟨s.tail, k + 1⟩ :=
      Cursor.bump_snd_of_first (by decide) hx
    rw [hfx] at hx2 ⊢
    constructor
    · exact iff_of_true ⟨Base.Hexadecimal, rfl⟩
        ⟨hd, Or.inr (Or.inr ⟨hx, by simpa using hx2⟩)⟩
    · intro b hbb
      simp only [LiteralKind.Int.injEq] at hbb
      rw [← hbb.1]
      rfl
  · -- 0x with digits
    have hfx : ((⟨s, k⟩ : Cursor).bump).2 = ⟨s.tail, k + 1⟩ :=
      Cursor.bump_snd_of_first (by decide) hx
    constructor
    · apply iff_of_false
      · rintro ⟨b, hbb⟩
        exact numberAfterDigits_ne_empty_int _ _ _ hbb
      · rintro ⟨-, ⟨h1, -⟩ | ⟨h1, -⟩ | ⟨-, h1⟩⟩
        · exact absurd (hx.symm.trans h1) (by decide)
        · exact absurd (hx.symm.trans h1) (by decide)
        · rw [← hfx] at h1
          simp only [h1] at hx2
          exact hx2 rfl
    · intro b hbb
      exact absurd hbb (numberAfterDigits_ne_empty_int _ _ _)
  · -- 0 followed by a digit-class character: no prefix
    constructor
    · apply iff_of_false
      · rintro ⟨b, hbb⟩
        exact numberAfterDigits_ne_empty_int _ _ _ hbb
      · rintro ⟨-, ⟨h1, -⟩ | ⟨h1, -⟩ | ⟨h1, -⟩⟩
        · exact hb h1
        · exact ho h1
        · exact hx h1
    · intro b hbb
      exact absurd hbb (numberAfterDigits_ne_empty_int _ _ _)
  · -- just a 0
    constructor
    · apply iff_of_false
      · rintro ⟨b, hbb⟩
        simp at hbb
      · rintro ⟨-, ⟨h1, -⟩ | ⟨h1, -⟩ | ⟨h1, -⟩⟩
        · exact hb h1
        · exact ho h1
        · exact hx h1
    · intro b hbb
      simp at hbb
  · -- first digit not 0
    constructor
    · apply iff_of_false
      · rintro ⟨b, hbb⟩
        exact numberAfterDigits_ne_empty_int _ _ _ hbb
      · rintro ⟨h1, -⟩
        exact hd h1
    · intro b hbb
      exact absurd hbb (numberAfterDigits_ne_empty_int _ _ _)

/-- Witness for C7 at `0x.5`: empty Int in hexadecimal, scanner stopped
before the dot (so `0x.5` is never a Float). -/
theorem c7_witness :
    (number ⟨['x', '.', '5'], 1⟩ '0').2 =
      (if Base.Hexadecimal = Base.Hexadecimal then
        (Cursor.eat_hexadecimal_digits ⟨['x', '.', '5'].tail, 1 + 1⟩).2
      else (Cursor.eat_decimal_digits ⟨['x', '.', '5'].tail, 1 + 1⟩).2) :=
  (c7_claim ['x', '.', '5'] 1 '0').2 Base.Hexadecimal (by decide)

/-! ## Claim C6 — quote disambiguation -/

/-- C6.  With the cursor just past an opening quote: `a'` is a terminated
character literal; a lone `a` is a lifetime; a lone `'` (the input `''`)
takes the character-literal path and never yields a zero-length lifetime;
`1` is a lifetime flagged as starting with a number; `abc'` is a terminated
character literal because the identifier run lands on a closing quote. -/
theorem c6_claim :
    (lifetime_or_char ⟨['a', '\''], 1⟩ =
      (TokenKind.Literal (LiteralKind.Char true) 3, ⟨[], 3⟩)) ∧
    (lifetime_or_char ⟨['a'], 1⟩ = (TokenKind.Lifetime false, ⟨[], 2⟩)) ∧
    (lifetime_or_char ⟨['\''], 1⟩ =
      (TokenKind.Literal (LiteralKind.Char true) 2, ⟨[], 2⟩)) ∧
    (lifetime_or_char ⟨['1'], 1⟩ = (TokenKind.Lifetime true, ⟨[], 2⟩)) ∧
    (lifetime_or_char ⟨['a', 'b', 'c', '\''], 1⟩ =
      (TokenKind.Literal (LiteralKind.Char true) 5, ⟨[], 5⟩)) := by
  decide

/-! ## Claim C9 — termination of every scan loop -/

/-- C9.  Every scan loop finishes within an iteration budget of input length
plus one: running each loop with that explicit budget never exhausts it and
computes exactly the loop's value, so every iteration consumes at least one
character or exits and no routine can loop forever on a finite input. -/
theorem c9_claim :
    (∀ (s : List Char) (k : Nat),
      single_quoted_loopF (s.length + 1) s k = some (single_quoted_loop s k)) ∧
    (∀ (s : List Char) (k : Nat),
      double_quoted_loopF (s.length + 1) s k = some (double_quoted_loop s k)) ∧
    (∀ (n sp pl mh : Nat) (pto : Option Nat) (c : Cursor),
      raw_string_loopF (c.s.length + 1) n sp pl mh pto c =
        some (raw_string_loop n sp pl mh pto c)) :=
  ⟨fun s k => single_quoted_loopF_eq _ s k (Nat.lt_succ_self _),
   fun s k => double_quoted_loopF_eq _ s k (Nat.lt_succ_self _),
   fun n sp pl mh pto c => raw_string_loopF_eq _ n sp pl mh pto c (Nat.lt_succ_self _)⟩

/-! ## Claim C8 — single-quote loop exit conditions -/

/-- Postcondition of the single-quote loop: `true` is returned exactly by
consuming a bare quote, and `false` leaves the stopping character (slash,
lone newline, or end of input) unconsumed. -/
theorem single_quoted_loop_post :
    ∀ (s : List Char) (k : Nat),
      ((single_quoted_loop s k).1 = true →
        ∃ cm : Cursor, cm.first = '\'' ∧ cm.s <:+ s ∧
          (single_quoted_loop s k).2 = (cm.bump).2) ∧
      ((single_quoted_loop s k).1 = false →
        (single_quoted_loop s k).2.first = '/' ∨
        ((single_quoted_loop s k).2.first = '\n' ∧
          (single_quoted_loop s k).2.second ≠ '\'') ∨
        (single_quoted_loop s k).2.is_eof = true)
  | [], k => by
    constructor
    · intro h
      exact absurd h (by simp [show single_quoted_loop [] k = (false, ⟨[], k⟩) from rfl])
    · intro _
      right; right
      rfl
  | ch :: rest, k => by
    rw [single_quoted_loop_cons]
    split_ifs with h1 h2 h3 h4
    · constructor
      · intro _
        refine ⟨⟨ch :: rest, k⟩, ?_, List.suffix_refl _, rfl⟩
        simpa [Cursor.first] using h1
      · intro h
        simp at h
    · constructor
      · intro h
        simp at h
      · intro _
        left
        simpa [Cursor.first] using h2
    · constructor
      · intro h
        simp at h
      · intro _
        right; left
        constructor
        · simpa [Cursor.first] using h3.1
        · simpa [Cursor.second] using h3.2
    · cases rest with
      | nil =>
        constructor
        · intro h
          simp at h
        · intro _
          right; right
          rfl
      | cons b rest2 =>
        obtain ⟨ht, hf⟩ := single_quoted_loop_post rest2 (k + 2)
        constructor
        · intro h
          obtain ⟨cm, hcm1, hcm2, hcm3⟩ := ht h
          exact ⟨cm, hcm1,
            hcm2.trans ((List.suffix_cons b rest2).trans
              (List.suffix_cons ch (b :: rest2))), hcm3⟩
        · exact hf
    · obtain ⟨ht, hf⟩ := single_quoted_loop_post rest (k + 1)
      constructor
      · intro h
        obtain ⟨cm, hcm1, hcm2, hcm3⟩ := ht h
        exact ⟨cm, hcm1, hcm2.trans (List.suffix_cons ch rest), hcm3⟩
      · exact hf

/-- C8.  The general single-quote loop returns `terminated = true` exactly
when it consumes a bare quote; it returns `false` with the stopping
character unconsumed when the next character is `/`, a newline not followed
by a quote, or end of input; and a backslash always consumes itself and the
following character, whatever it is — so an escaped quote never terminates
(`\'` at end of input stays unterminated). -/
theorem c8_claim :
    (∀ (s : List Char) (k : Nat),
      ((single_quoted_loop s k).1 = true →
        ∃ cm : Cursor, cm.first = '\'' ∧ cm.s <:+ s ∧
          (single_quoted_loop s k).2 = (cm.bump).2) ∧
      ((single_quoted_loop s k).1 = false →
        (single_quoted_loop s k).2.first = '/' ∨
        ((single_quoted_loop s k).2.first = '\n' ∧
          (single_quoted_loop s k).2.second ≠ '\'') ∨
        (single_quoted_loop s k).2.is_eof = true)) ∧
    (∀ (b : Char) (rest : List Char) (k : Nat),
      single_quoted_loop ('\\' :: b :: rest) k = single_quoted_loop rest (k + 2)) ∧
    (∀ (k : Nat), single_quoted_loop ['\\'] k = (false, ⟨[], k + 1⟩)) ∧
    single_quoted_loop ['\\', '\''] 1 = (false, ⟨[], 3⟩) := by
  refine ⟨single_quoted_loop_post, ?_, ?_, by decide⟩
  · intro b rest k
    rw [single_quoted_loop_cons, if_neg (by decide), if_neg (by decide),
      if_neg (fun hc => absurd hc.1 (by decide)), if_pos rfl]
  · intro k
    rw [single_quoted_loop_cons, if_neg (by decide), if_neg (by decide),
      if_neg (fun hc => absurd hc.1 (by decide)), if_pos rfl]

/-- Witness for C8 at the terminated input `a'` and the comment stop `/`. -/
theorem c8_witness :
    (∃ cm : Cursor, cm.first = '\'' ∧ cm.s <:+ ['a', '\''] ∧
      (single_quoted_loop ['a', '\''] 1).2 = (cm.bump).2) ∧
    ((single_quoted_loop ['/'] 1).2.first = '/' ∨
     ((single_quoted_loop ['/'] 1).2.first = '\n' ∧
       (single_quoted_loop ['/'] 1).2.second ≠ '\'') ∨
     (single_quoted_loop ['/'] 1).2.is_eof = true) :=
  ⟨(c8_claim.1 ['a', '\''] 1).1 (by decide),
   (c8_claim.1 ['/'] 1).2 (by decide)⟩
